import Mathlib

/-!
Verification of the `bytifex-utils` container and channel primitives against
their natural-language specification.  The Rust sources are shallowly embedded:
`ObjectPool` (spec name: Arena), `ObjectMapPool` (KeyedArena),
`MultiTypeDict`/`SendableMultiTypeDict` (TypeRegistry / ConcurrentTypeRegistry),
the broadcast channel (`FanoutChannel`), the mpcc channel
(`SingleDeliveryChannel`), the callback event (`CallbackRegistry`) and
`Observable` (ObservableValue).  Mutable state is passed explicitly; Rust
`Option`/`Result` become `Option`/`Except`; closures stored in arenas are
modelled as abstract identifiers, and invoking them is modelled by emitting a
call log of (identifier, argument) pairs.
-/

namespace BytifexUtils

/-- Index into an `ObjectPool`: a slot position plus the generation the index
was created with (`src/containers/object_pool.rs`, `ObjectPoolIndex`).  The
generation is signed in the source (`isize`), `-1` marking the invalid index. -/
structure ObjectPoolIndex where
  index : Nat
  version : Int
  deriving DecidableEq, Repr

/-- Companion of `ObjectPoolIndex::invalid`: position `0`, generation `-1`. -/
def ObjectPoolIndex.invalid : ObjectPoolIndex := ⟨0, -1⟩

/-- One arena slot (`ObjectWrapper` in the source): the slot's current
generation and its optional stored value. -/
structure Slot (T : Type) where
  version : Int
  object : Option T
  deriving DecidableEq, Repr

/-- Default slot used to totalise out-of-range reads; the Rust source never
reads out of range on the paths we model (indexing would panic there). -/
def dSlot {T : Type} : Slot T := ⟨0, none⟩

/-- Minimum of a list of naturals, `none` on the empty list.  Models the
extraction order of the `BinaryHeap<Reverse<usize>>` free list. -/
def listMinimum : List Nat → Option Nat
  | [] => none
  | x :: xs =>
    some (match listMinimum xs with
      | none => x
      | some m => min x m)

/-- Pop the minimum element of the free-slot multiset, returning it together
with the remaining multiset; models `BinaryHeap<Reverse<usize>>::pop`. -/
def popMin (l : List Nat) : Option (Nat × List Nat) :=
  match listMinimum l with
  | none => none
  | some m => some (m, l.erase m)

/-- The arena (`ObjectPool` in the source): a vector of slots, the free-slot
min-heap (modelled as the multiset of its elements), and the live-item count. -/
structure ObjectPool (T : Type) where
  objects : List (Slot T)
  free_slots : List Nat
  number_of_items : Nat
  deriving DecidableEq, Repr

namespace ObjectPool

/-- Companion of `ObjectPool::new`. -/
def new {T : Type} : ObjectPool T := ⟨[], [], 0⟩

/-- Companion of `ObjectPool::create_object`: pop the lowest free position if
any (bumping that slot's generation and storing the value), else append a new
slot with generation `1`.  Returns the new pool and the issued index. -/
def create_object {T : Type} (p : ObjectPool T) (value : T) :
    ObjectPool T × ObjectPoolIndex :=
  match popMin p.free_slots with
  | some (index, rest) =>
    (⟨p.objects.set index
        ⟨(p.objects.getD index dSlot).version + 1, some value⟩, rest,
      p.number_of_items + 1⟩,
     ⟨index, (p.objects.getD index dSlot).version + 1⟩)
  | none =>
    (⟨p.objects ++ [⟨1, some value⟩], p.free_slots,
      p.number_of_items + 1⟩,
     ⟨p.objects.length, 1⟩)

/-- Companion of `ObjectPool::release_object`: on an in-range position whose
slot generation equals the index's, bump the generation again, push the
position onto the free list, decrement the count and return the stored value;
otherwise a no-op returning `none`. -/
def release_object {T : Type} (p : ObjectPool T) (idx : ObjectPoolIndex) :
    ObjectPool T × Option T :=
  if idx.index < p.objects.length then
    if (p.objects.getD idx.index dSlot).version = idx.version then
      (⟨p.objects.set idx.index
          ⟨(p.objects.getD idx.index dSlot).version + 1, none⟩,
        idx.index :: p.free_slots,
        p.number_of_items - 1⟩,
       (p.objects.getD idx.index dSlot).object)
    else (p, none)
  else (p, none)

/-- Companion of `ObjectPool::get_ref`: the stored value when the position is
in range and the generations match, else `none`. -/
def get_ref {T : Type} (p : ObjectPool T) (idx : ObjectPoolIndex) : Option T :=
  if idx.index < p.objects.length then
    if (p.objects.getD idx.index dSlot).version = idx.version then
      (p.objects.getD idx.index dSlot).object
    else none
  else none

/-- Companion of `ObjectPool::get_mut`: same lookup as `get_ref`; the value it
returns is the one the source hands out a mutable reference to. -/
def get_mut {T : Type} (p : ObjectPool T) (idx : ObjectPoolIndex) : Option T :=
  if idx.index < p.objects.length then
    if (p.objects.getD idx.index dSlot).version = idx.version then
      (p.objects.getD idx.index dSlot).object
    else none
  else none

/-- Companion of `ObjectPool::iter`: the live values in slot order (free slots
are skipped). -/
def iterList {T : Type} (p : ObjectPool T) : List T :=
  p.objects.filterMap Slot.object

/-- Companion of `ObjectPool::len`. -/
def len {T : Type} (p : ObjectPool T) : Nat := p.number_of_items

/-- Companion of `ObjectPool::is_empty`. -/
def is_empty {T : Type} (p : ObjectPool T) : Bool := p.number_of_items == 0

end ObjectPool

/-- Well-formedness of a pool together with the set of indices the program may
hold (`issued`): the item count matches the number of occupied slots, the free
list is duplicate-free and points at in-range empty slots, every slot's
generation is at least `1`, and every issued index is in range, carries a
generation between `1` and its slot's current one, and can only match a slot
that is occupied. -/
def PoolInv {T : Type} (p : ObjectPool T) (issued : List ObjectPoolIndex) :
    Prop :=
  p.number_of_items = (p.objects.filterMap Slot.object).length ∧
  p.free_slots.Nodup ∧
  (∀ i ∈ p.free_slots,
    i < p.objects.length ∧ (p.objects.getD i dSlot).object = none) ∧
  (∀ i, i < p.objects.length → 1 ≤ (p.objects.getD i dSlot).version) ∧
  (∀ idx ∈ issued,
    idx.index < p.objects.length ∧ 1 ≤ idx.version ∧
    idx.version ≤ (p.objects.getD idx.index dSlot).version ∧
    (idx.version = (p.objects.getD idx.index dSlot).version →
      (p.objects.getD idx.index dSlot).object.isSome))

/-- Pool states reachable through the public API, together with the list of
indices the program has been given out.  `release_object` may be called with
any previously issued index (indices are `Copy` in Rust and may be reused or
released twice) or with a forged-free index of generation below `1` (only
`ObjectPoolIndex::invalid`, generation `-1`, is constructible outside
`create_object`). -/
inductive PReach {T : Type} : ObjectPool T → List ObjectPoolIndex → Prop where
  | init : PReach ObjectPool.new []
  | create (p : ObjectPool T) (I : List ObjectPoolIndex) (v : T) :
      PReach p I →
      PReach (p.create_object v).1 ((p.create_object v).2 :: I)
  | release (p : ObjectPool T) (I : List ObjectPoolIndex)
      (idx : ObjectPoolIndex) (hidx : idx ∈ I ∨ idx.version < 1) :
      PReach p I → PReach (p.release_object idx).1 I

section ArenaScenario

/-- Scenario state for the concrete Arena claim: first of five objects created
in an empty pool. -/
def scn1 : ObjectPool Nat × ObjectPoolIndex := ObjectPool.new.create_object 100

def scn2 : ObjectPool Nat × ObjectPoolIndex := scn1.1.create_object 101

def scn3 : ObjectPool Nat × ObjectPoolIndex := scn2.1.create_object 102

def scn4 : ObjectPool Nat × ObjectPoolIndex := scn3.1.create_object 103

def scn5 : ObjectPool Nat × ObjectPoolIndex := scn4.1.create_object 104

/-- Scenario state after releasing the indices at positions 2, 1, 4, in that
order. -/
def scnRel : ObjectPool Nat :=
  ((scn5.1.release_object scn3.2).1.release_object scn2.2).1.release_object
    scn5.2 |>.1

/-- Scenario state after the subsequent create, which reuses a freed slot. -/
def scn6 : ObjectPool Nat × ObjectPoolIndex := scnRel.create_object 105

/-- Concrete one-slot pool used to witness the stale-index claim. -/
def stalePool : ObjectPool Nat := ⟨[⟨2, some 42⟩], [], 1⟩

end ArenaScenario

/-! ## KeyedArena (`ObjectMapPool`, `src/containers/object_map_pool.rs`)

The source wraps the pool index in a newtype `ObjectMapPoolIndex`; we identify
the wrapper with the wrapped `ObjectPoolIndex`.  The `BTreeMap` of indices is
modelled by its lookup function. -/

/-- The keyed arena: a pool of key/value pairs and the key-to-index map. -/
structure ObjectMapPool (K V : Type) where
  object_pool : ObjectPool (K × V)
  map_of_indices : K → Option ObjectPoolIndex

/-- Result of `ObjectMapPool::get_ref_by_key`; `torn` is the `unreachable!()`
panic branch taken if a mapped key's arena slot is not live. -/
inductive KeyLookup (K V : Type) where
  | found (k : K) (v : V)
  | notFound
  | torn
  deriving DecidableEq, Repr

namespace ObjectMapPool

/-- Companion of `ObjectMapPool::new`. -/
def new {K V : Type} : ObjectMapPool K V := ⟨ObjectPool.new, fun _ => none⟩

/-- Companion of `ObjectMapPool::create_object`: allocate an arena slot for
`(key, value)` and overwrite the map entry for `key` with the new index. -/
def create_object {K V : Type} [DecidableEq K] (s : ObjectMapPool K V) (k : K)
    (v : V) : ObjectMapPool K V × ObjectPoolIndex :=
  (⟨(s.object_pool.create_object (k, v)).1,
    Function.update s.map_of_indices k
      (some (s.object_pool.create_object (k, v)).2)⟩,
   (s.object_pool.create_object (k, v)).2)

/-- Companion of `ObjectMapPool::release_object_by_index`: release the arena
slot; on success remove the map entry keyed by the released pair's key. -/
def release_object_by_index {K V : Type} [DecidableEq K]
    (s : ObjectMapPool K V) (idx : ObjectPoolIndex) :
    ObjectMapPool K V × Option (K × V) :=
  match (s.object_pool.release_object idx).2 with
  | some kv =>
    (⟨(s.object_pool.release_object idx).1,
      Function.update s.map_of_indices kv.1 none⟩, some kv)
  | none => (⟨(s.object_pool.release_object idx).1, s.map_of_indices⟩, none)

/-- Companion of `ObjectMapPool::release_object_by_key`: look the key up in the
map and delegate to release-by-index; `none` when the key is unmapped. -/
def release_object_by_key {K V : Type} [DecidableEq K] (s : ObjectMapPool K V)
    (k : K) : ObjectMapPool K V × Option (K × V) :=
  match s.map_of_indices k with
  | some idx => s.release_object_by_index idx
  | none => (s, none)

/-- Companion of `ObjectMapPool::get_ref_by_index`. -/
def get_ref_by_index {K V : Type} (s : ObjectMapPool K V)
    (idx : ObjectPoolIndex) : Option (K × V) :=
  s.object_pool.get_ref idx

/-- Companion of `ObjectMapPool::get_ref_by_key`: map lookup, then arena
access; a mapped key whose slot is dead hits the `unreachable!()` branch. -/
def get_ref_by_key {K V : Type} (s : ObjectMapPool K V) (k : K) :
    KeyLookup K V :=
  match s.map_of_indices k with
  | none => .notFound
  | some idx =>
    match s.get_ref_by_index idx with
    | some kv => .found kv.1 kv.2
    | none => .torn

/-- Companion of `ObjectMapPool::get_mut_by_index`. -/
def get_mut_by_index {K V : Type} (s : ObjectMapPool K V)
    (idx : ObjectPoolIndex) : Option (K × V) :=
  s.object_pool.get_mut idx

/-- Companion of `ObjectMapPool::get_mut_by_key`: map lookup, then arena
access; a dead slot simply yields `none` here (no panic branch). -/
def get_mut_by_key {K V : Type} (s : ObjectMapPool K V) (k : K) :
    Option (K × V) :=
  match s.map_of_indices k with
  | some idx => s.get_mut_by_index idx
  | none => none

/-- Companion of `ObjectMapPool::len`. -/
def len {K V : Type} (s : ObjectMapPool K V) : Nat := s.object_pool.len

end ObjectMapPool

/-- Well-formedness of a keyed arena: the underlying pool is well formed with
respect to the issued indices, and every map entry holds an issued index whose
arena slot is live and stores exactly that key. -/
def KInv {K V : Type} (s : ObjectMapPool K V)
    (issued : List ObjectPoolIndex) : Prop :=
  PoolInv s.object_pool issued ∧
  ∀ k idx, s.map_of_indices k = some idx →
    idx ∈ issued ∧ ∃ v, s.object_pool.get_ref idx = some (k, v)

/-- Keyed-arena states reachable through the public API, with the issued-index
list tracked as for `PReach`. -/
inductive KReach {K V : Type} [DecidableEq K] :
    ObjectMapPool K V → List ObjectPoolIndex → Prop where
  | init : KReach ObjectMapPool.new []
  | create (s : ObjectMapPool K V) (I : List ObjectPoolIndex) (k : K) (v : V) :
      KReach s I →
      KReach (s.create_object k v).1 ((s.create_object k v).2 :: I)
  | release_by_index (s : ObjectMapPool K V) (I : List ObjectPoolIndex)
      (idx : ObjectPoolIndex) (hidx : idx ∈ I ∨ idx.version < 1) :
      KReach s I → KReach (s.release_object_by_index idx).1 I
  | release_by_key (s : ObjectMapPool K V) (I : List ObjectPoolIndex) (k : K) :
      KReach s I → KReach (s.release_object_by_key k).1 I

/-- Concrete keyed arena with one entry, used as a reachable witness state. -/
def kScn1 : ObjectMapPool Nat Nat × ObjectPoolIndex :=
  ObjectMapPool.new.create_object 3 30

/-! ## TypeRegistry (`MultiTypeDict`, `src/containers/multi_type_dict.rs`)

`TypeId`s are modelled as naturals; the type-erased `Arc<dyn Any>` payloads by
a single value type, since the claims under scrutiny concern the storage
discipline of `get_or_insert_item_ref`, not downcasting.  The `Bool` in the
result records whether the `FnOnce` constructor was invoked. -/

/-- The registry: `TypeId`-keyed storage (`BTreeMap` in the source, modelled
as an association list queried by key). -/
structure MultiTypeDict (A : Type) where
  storage : List (Nat × A)

namespace MultiTypeDict

/-- Companion of `storage.get(&type_id)`. -/
def lookupType {A : Type} (d : MultiTypeDict A) (tid : Nat) : Option A :=
  (d.storage.find? (fun e => e.1 == tid)).map (fun e => e.2)

/-- Companion of `MultiTypeDict::get_or_insert_item_ref`: return the existing
entry for the type if present (constructor not run), else run the constructor
once, insert its result and return it.  The boolean reports whether the
constructor ran. -/
def get_or_insert_item_ref {A : Type} (d : MultiTypeDict A) (tid : Nat)
    (item_creator : Unit → A) : MultiTypeDict A × A × Bool :=
  match d.storage.find? (fun e => e.1 == tid) with
  | some e => (d, e.2, false)
  | none => (⟨(tid, item_creator ()) :: d.storage⟩, item_creator (), true)

/-- Companion of `SendableMultiTypeDict::get_or_insert_item_ref`
(`src/containers/sendable_multi_type_dict.rs`): per call, the storage logic is
identical to the non-sendable variant; the per-type lock taken around it only
serialises concurrent callers. -/
def get_or_insert_item_ref_concurrent {A : Type} (d : MultiTypeDict A)
    (tid : Nat) (item_creator : Unit → A) : MultiTypeDict A × A × Bool :=
  match d.storage.find? (fun e => e.1 == tid) with
  | some e => (d, e.2, false)
  | none => (⟨(tid, item_creator ()) :: d.storage⟩, item_creator (), true)

/-- Sequence of `get_or_insert_item_ref` calls for one type: returns the final
registry, the items returned by each call, and how many calls ran their
constructor. -/
def runCalls {A : Type} (d : MultiTypeDict A) (tid : Nat) :
    List (Unit → A) → MultiTypeDict A × List A × Nat
  | [] => (d, [], 0)
  | c :: rest =>
    ((runCalls (d.get_or_insert_item_ref tid c).1 tid rest).1,
     (d.get_or_insert_item_ref tid c).2.1 ::
       (runCalls (d.get_or_insert_item_ref tid c).1 tid rest).2.1,
     (if (d.get_or_insert_item_ref tid c).2.2 then 1 else 0) +
       (runCalls (d.get_or_insert_item_ref tid c).1 tid rest).2.2)

end MultiTypeDict

/-! ## FanoutChannel (`src/sync/broadcast.rs`) and CallbackRegistry
(`src/sync/callback_event.rs`)

For the deferred-removal claims, receiver queues and callbacks are abstract
values stored in an `ObjectPool`; a drop and the pending-removal drain are
state transformers on that pool. -/

/-- Shared receiver-queue registry of the broadcast channel
(`ReceiverQueueList`): the arena of queues plus the pending-removal list
(`Vec`, pushed at the head here so that the drain's `pop` order — last pushed
first — is head-first). -/
structure FanoutQueues (Q : Type) where
  receiver_queues : ObjectPool Q
  to_be_removed : List ObjectPoolIndex

/-- Companion of `Drop for Receiver` (broadcast): only push the queue id onto
the pending-removal list; the arena is not touched. -/
def receiverDrop {Q : Type} (s : FanoutQueues Q) (queue_id : ObjectPoolIndex) :
    FanoutQueues Q :=
  ⟨s.receiver_queues, queue_id :: s.to_be_removed⟩

/-- Companion of `ReceiverQueueList::handle_to_be_removed`, run at the start of
every `send`: release every pending id from the arena and clear the list. -/
def handleToBeRemoved {Q : Type} (s : FanoutQueues Q) : FanoutQueues Q :=
  ⟨s.to_be_removed.foldl (fun p id => (p.release_object id).1)
     s.receiver_queues,
   []⟩

/-- Companion of `Drop for Subscription` (callback event): release the callback
from the arena immediately, inside the drop, under the lock. -/
def subscriptionDrop {C : Type} (callbacks : ObjectPool C)
    (callback_index : ObjectPoolIndex) : ObjectPool C :=
  (callbacks.release_object callback_index).1

/-- Concrete callback arena with a single subscribed callback (id `7`). -/
def cbScn : ObjectPool Nat × ObjectPoolIndex := ObjectPool.new.create_object 7

/-- Error value of `Receiver::try_pop` (broadcast). -/
inductive SenderDropped where
  | mk
  deriving DecidableEq, Repr

/-- Receiver-side state of the broadcast channel relevant to `try_pop`: the
receiver's own queue and the sender-side strong count observed through the
weak `UsageCounterWatcher`. -/
structure BroadcastReceiver (T : Type) where
  queue : List T
  watcherCount : Nat

/-- Companion of `UsageCounterWatcher::is_observed_dropped`
(`src/sync/usage_counter.rs`): the observed strong count is zero. -/
def is_observed_dropped (watcherCount : Nat) : Bool := watcherCount == 0

/-- Companion of `Receiver::try_pop` (broadcast): pop the queue head if any;
on an empty queue report `SenderDropped` when the watcher observes zero live
senders, else "empty, try later" (`Ok(None)`). -/
def broadcastTryPop {T : Type} (r : BroadcastReceiver T) :
    Except SenderDropped (Option T) × BroadcastReceiver T :=
  match r.queue with
  | x :: rest => (.ok (some x), ⟨rest, r.watcherCount⟩)
  | [] =>
    if is_observed_dropped r.watcherCount then (.error .mk, r)
    else (.ok none, r)

/-! ## SingleDeliveryChannel (`src/sync/mpcc.rs`) -/

/-- Error type of `Sender::send`. -/
inductive SendError where
  | Disconnected
  deriving DecidableEq, Repr

/-- Error type of `Receiver::try_pop`/`try_recv`. -/
inductive TryRecvError where
  | Empty
  | Disconnected
  deriving DecidableEq, Repr

/-- Shared state of the mpcc channel: the FIFO queue, the atomic sender count,
the number of live receivers (the watch channel's `receiver_count`), and the
number of pings sent on the change signal. -/
structure MpccShared (T : Type) where
  queue : List T
  senderCount : Nat
  receiverCount : Nat
  signalCount : Nat

/-- Companion of `Sender::send` (mpcc): if a receiver exists, push the message
at the queue tail and ping the change signal; else fail with `Disconnected`
touching nothing. -/
def mpccSend {T : Type} (s : MpccShared T) (msg : T) :
    MpccShared T × Except SendError Unit :=
  if s.receiverCount ≠ 0 then
    (⟨s.queue ++ [msg], s.senderCount, s.receiverCount, s.signalCount + 1⟩,
     .ok ())
  else (s, .error .Disconnected)

/-- Companion of `Receiver::try_pop` (mpcc): pop the queue head if present
(pinging the signal); on an empty queue report `Disconnected` when the sender
count is zero, else `Empty`. -/
def mpccTryPop {T : Type} (s : MpccShared T) :
    MpccShared T × Except TryRecvError T :=
  match s.queue with
  | msg :: rest =>
    (⟨rest, s.senderCount, s.receiverCount, s.signalCount + 1⟩, .ok msg)
  | [] =>
    if s.senderCount = 0 then (s, .error .Disconnected)
    else (s, .error .Empty)

/-! ## ObservableValue (`src/sync/observable_fn.rs`)

Observer closures are abstract identifiers; invoking an observer with a value
is modelled by emitting the pair (identifier, value) into a call log. -/

/-- The observable: current value, the observer arena, and the deferred
observer-removal list (`Vec`, pushed at the tail and drained front to back, as
`Vec::push` / `iter()` do). -/
structure Observable (T : Type) where
  value : T
  observers : ObjectPool Nat
  to_be_deleted_observers : List ObjectPoolIndex

namespace Observable

/-- Companion of `Observable::trigger_observers`: first release every observer
marked for deletion and clear that list, then invoke every remaining live
observer with the current value, in slot order.  Returns the new state and the
call log. -/
def trigger_observers {T : Type} (o : Observable T) :
    Observable T × List (Nat × T) :=
  (⟨o.value,
    o.to_be_deleted_observers.foldl (fun p idx => (p.release_object idx).1)
      o.observers,
    []⟩,
   (o.to_be_deleted_observers.foldl (fun p idx => (p.release_object idx).1)
      o.observers).iterList.map (fun f => (f, o.value)))

/-- Companion of a `borrow_mut` scope: the guard gives direct mutable access —
modelled as a list of mutations applied in order, with no observer invocation
while the guard is alive — and its `Drop` then runs `trigger_observers` once
on the final value. -/
def borrowMutScope {T : Type} (o : Observable T) (fs : List (T → T)) :
    Observable T × List (Nat × T) :=
  trigger_observers
    ⟨fs.foldl (fun a f => f a) o.value, o.observers, o.to_be_deleted_observers⟩

end Observable

/-- Concrete broadcast receiver state: empty queue, zero observed senders. -/
def bScn : BroadcastReceiver Nat := ⟨[], 0⟩

/-- Concrete mpcc channel state: one queued message, one sender, one
receiver. -/
def mScn : MpccShared Nat := ⟨[4], 1, 1, 0⟩

/-- Concrete observable: value `0`, one live observer (id `3`), nothing marked
for deletion. -/
def oScn : Observable Nat := ⟨0, (ObjectPool.new.create_object 3).1, []⟩

/-- Concrete batch of guard mutations. -/
def oFs : List (Nat → Nat) := [fun v => v + 1, fun v => v * 2]

/-! ## List helper lemmas -/

theorem getD_set_self {α : Type} {l : List α} {i : Nat} (a d : α)
    (h : i < l.length) : (l.set i a).getD i d = a := by
  induction l generalizing i with
  | nil => simp at h
  | cons x xs ih =>
    cases i with
    | zero => rfl
    | succ n => simpa using ih (by simpa using h)

theorem getD_set_ne {α : Type} {l : List α} {i j : Nat} (a d : α)
    (h : i ≠ j) : (l.set i a).getD j d = l.getD j d := by
  induction l generalizing i j with
  | nil => simp
  | cons x xs ih =>
    cases i with
    | zero =>
      cases j with
      | zero => exact absurd rfl h
      | succ m => simp
    | succ n =>
      cases j with
      | zero => simp
      | succ m => simpa using ih (fun hnm => h (by simp [hnm]))

theorem length_filterMap_set_fill {T : Type} {l : List (Slot T)} {i : Nat}
    (h : i < l.length) (hold : (l.getD i dSlot).object = none) (w : Int)
    (v : T) :
    ((l.set i ⟨w, some v⟩).filterMap Slot.object).length =
      (l.filterMap Slot.object).length + 1 := by
  induction l generalizing i with
  | nil => simp at h
  | cons x xs ih =>
    cases i with
    | zero =>
      have hx : x.object = none := by simpa using hold
      simp [List.filterMap_cons, hx]
    | succ n =>
      have h' : n < xs.length := by simpa using h
      have hold' : (xs.getD n dSlot).object = none := by simpa using hold
      cases hx : x.object with
      | none => simpa [List.filterMap_cons, hx] using ih h' hold'
      | some b => simp [List.filterMap_cons, hx, ih h' hold']

theorem length_filterMap_set_clear {T : Type} {l : List (Slot T)} {i : Nat}
    (h : i < l.length) (hold : (l.getD i dSlot).object.isSome) (w : Int) :
    ((l.set i ⟨w, none⟩).filterMap Slot.object).length + 1 =
      (l.filterMap Slot.object).length := by
  induction l generalizing i with
  | nil => simp at h
  | cons x xs ih =>
    cases i with
    | zero =>
      obtain ⟨v, hx⟩ := Option.isSome_iff_exists.mp (by simpa using hold)
      simp [List.filterMap_cons, hx]
    | succ n =>
      have h' : n < xs.length := by simpa using h
      have hold' : (xs.getD n dSlot).object.isSome := by simpa using hold
      cases hx : x.object with
      | none => simpa [List.filterMap_cons, hx] using ih h' hold'
      | some b => simp [List.filterMap_cons, hx, ← ih h' hold']

theorem listMinimum_eq_none_iff {l : List Nat} :
    listMinimum l = none ↔ l = [] := by
  cases l <;> simp [listMinimum]

theorem listMinimum_mem {l : List Nat} {m : Nat}
    (h : listMinimum l = some m) : m ∈ l := by
  induction l generalizing m with
  | nil => simp [listMinimum] at h
  | cons x xs ih =>
    rw [listMinimum] at h
    cases hxs : listMinimum xs with
    | none =>
      rw [hxs] at h
      simp only [Option.some_inj] at h
      subst h
      exact List.mem_cons_self x xs
    | some m' =>
      rw [hxs] at h
      simp only [Option.some_inj] at h
      rcases Nat.le_total x m' with hle | hle
      · rw [min_eq_left hle] at h
        subst h
        exact List.mem_cons_self x xs
      · rw [min_eq_right hle] at h
        subst h
        exact List.mem_cons_of_mem x (ih hxs)

theorem listMinimum_le {l : List Nat} {m : Nat}
    (h : listMinimum l = some m) : ∀ x ∈ l, m ≤ x := by
  induction l generalizing m with
  | nil => simp
  | cons x xs ih =>
    rw [listMinimum] at h
    intro y hy
    cases hxs : listMinimum xs with
    | none =>
      rw [hxs] at h
      simp only [Option.some_inj] at h
      have hnil : xs = [] := listMinimum_eq_none_iff.mp hxs
      subst hnil
      simp only [List.mem_singleton] at hy
      subst hy; subst h; exact le_refl _
    | some m' =>
      rw [hxs] at h
      simp only [Option.some_inj] at h
      rcases List.mem_cons.mp hy with rfl | hy'
      · subst h; exact min_le_left _ _
      · subst h; exact le_trans (min_le_right _ _) (ih hxs y hy')

theorem popMin_eq_none_iff {l : List Nat} : popMin l = none ↔ l = [] := by
  unfold popMin
  cases hl : listMinimum l with
  | none => simp [listMinimum_eq_none_iff.mp hl]
  | some m =>
    simp only [reduceCtorEq, false_iff]
    intro hnil
    subst hnil
    simp [listMinimum] at hl

theorem popMin_eq_some {l : List Nat} {m : Nat} {rest : List Nat}
    (h : popMin l = some (m, rest)) :
    m ∈ l ∧ rest = l.erase m ∧ ∀ x ∈ l, m ≤ x := by
  unfold popMin at h
  cases hl : listMinimum l with
  | none => rw [hl] at h; cases h
  | some m' =>
    rw [hl] at h
    have h1 : m' = m ∧ l.erase m' = rest := by simpa using h
    obtain ⟨rfl, hrest⟩ := h1
    exact ⟨listMinimum_mem hl, hrest.symm, listMinimum_le hl⟩

/-! ## Branch equations for the pool operations -/

theorem create_object_pop {T : Type} {p : ObjectPool T} {m : Nat}
    {rest : List Nat} (hpop : popMin p.free_slots = some (m, rest)) (v : T) :
    p.create_object v =
      (⟨p.objects.set m ⟨(p.objects.getD m dSlot).version + 1, some v⟩, rest,
        p.number_of_items + 1⟩,
       ⟨m, (p.objects.getD m dSlot).version + 1⟩) := by
  unfold ObjectPool.create_object
  rw [hpop]

theorem create_object_append {T : Type} {p : ObjectPool T}
    (hpop : popMin p.free_slots = none) (v : T) :
    p.create_object v =
      (⟨p.objects ++ [⟨1, some v⟩], p.free_slots, p.number_of_items + 1⟩,
       ⟨p.objects.length, 1⟩) := by
  unfold ObjectPool.create_object
  rw [hpop]

theorem release_object_hit {T : Type} {p : ObjectPool T}
    {idx : ObjectPoolIndex} (h1 : idx.index < p.objects.length)
    (h2 : (p.objects.getD idx.index dSlot).version = idx.version) :
    p.release_object idx =
      (⟨p.objects.set idx.index
          ⟨(p.objects.getD idx.index dSlot).version + 1, none⟩,
        idx.index :: p.free_slots, p.number_of_items - 1⟩,
       (p.objects.getD idx.index dSlot).object) := by
  unfold ObjectPool.release_object
  rw [if_pos h1, if_pos h2]

theorem release_object_miss {T : Type} {p : ObjectPool T}
    {idx : ObjectPoolIndex}
    (h : ¬ idx.index < p.objects.length ∨
      (p.objects.getD idx.index dSlot).version ≠ idx.version) :
    p.release_object idx = (p, none) := by
  unfold ObjectPool.release_object
  rcases h with h | h
  · rw [if_neg h]
  · by_cases h1 : idx.index < p.objects.length
    · rw [if_pos h1, if_neg h]
    · rw [if_neg h1]

theorem get_ref_some_inv {T : Type} {p : ObjectPool T} {idx : ObjectPoolIndex}
    {a : T} (h : p.get_ref idx = some a) :
    idx.index < p.objects.length ∧
      (p.objects.getD idx.index dSlot).version = idx.version ∧
      (p.objects.getD idx.index dSlot).object = some a := by
  unfold ObjectPool.get_ref at h
  by_cases h1 : idx.index < p.objects.length
  · rw [if_pos h1] at h
    by_cases h2 : (p.objects.getD idx.index dSlot).version = idx.version
    · rw [if_pos h2] at h
      exact ⟨h1, h2, h⟩
    · rw [if_neg h2] at h
      cases h
  · rw [if_neg h1] at h
    cases h

theorem get_ref_hit {T : Type} {p : ObjectPool T} {idx : ObjectPoolIndex}
    (h1 : idx.index < p.objects.length)
    (h2 : (p.objects.getD idx.index dSlot).version = idx.version) :
    p.get_ref idx = (p.objects.getD idx.index dSlot).object := by
  unfold ObjectPool.get_ref
  rw [if_pos h1, if_pos h2]

/-! ## Preservation of the pool invariant -/

theorem poolInv_create {T : Type} {p : ObjectPool T}
    {I : List ObjectPoolIndex} (hp : PoolInv p I) (v : T) :
    PoolInv (p.create_object v).1 ((p.create_object v).2 :: I) := by
  obtain ⟨hcount, hnodup, hfree, hver, hiss⟩ := hp
  cases hpop : popMin p.free_slots with
  | none =>
    rw [create_object_append hpop]
    have hfe : p.free_slots = [] := popMin_eq_none_iff.mp hpop
    refine ⟨?_, ?_, ?_, ?_, ?_⟩
    · simp [List.filterMap_append, hcount]
    · simp [hfe]
    · simp [hfe]
    · intro i hi
      simp only [List.length_append, List.length_singleton] at hi
      rcases Nat.lt_or_ge i p.objects.length with hlt | hge
      · rw [List.getD_append _ _ _ _ hlt]
        exact hver i hlt
      · have hieq : i = p.objects.length := by omega
        subst hieq
        rw [List.getD_append_right _ _ _ _ (le_refl _)]
        simp
    · intro idx hidx
      rcases List.mem_cons.mp hidx with rfl | hmem
      · have hg : (p.objects ++ [(⟨1, some v⟩ : Slot T)]).getD
            p.objects.length dSlot = ⟨1, some v⟩ := by
          rw [List.getD_append_right _ _ _ _ (le_refl _)]
          simp
        refine ⟨by simp, le_refl 1, ?_, ?_⟩
        · rw [hg]
        · rw [hg]
          intro
          rfl
      · obtain ⟨hlt, h1, hle, hmatch⟩ := hiss idx hmem
        have hg : (p.objects ++ [(⟨1, some v⟩ : Slot T)]).getD idx.index
            dSlot = p.objects.getD idx.index dSlot :=
          List.getD_append _ _ _ _ hlt
        refine ⟨?_, h1, ?_, ?_⟩
        · simp only [List.length_append, List.length_singleton]
          omega
        · rw [hg]; exact hle
        · rw [hg]; exact hmatch
  | some pr =>
    obtain ⟨m, rest⟩ := pr
    obtain ⟨hm_mem, hrest, hle_all⟩ := popMin_eq_some hpop
    obtain ⟨hmlt, hmobj⟩ := hfree m hm_mem
    rw [create_object_pop hpop]
    refine ⟨?_, ?_, ?_, ?_, ?_⟩
    · simp only []
      rw [length_filterMap_set_fill hmlt hmobj, hcount]
    · subst hrest
      exact hnodup.erase m
    · intro i hi
      subst hrest
      obtain ⟨hne, hifree⟩ := hnodup.mem_erase_iff.mp hi
      obtain ⟨hilt, hiobj⟩ := hfree i hifree
      refine ⟨by simpa using hilt, ?_⟩
      rw [getD_set_ne _ _ (Ne.symm hne)]
      exact hiobj
    · intro i hilt
      simp only [List.length_set] at hilt
      by_cases him : i = m
      · subst him
        rw [getD_set_self _ _ hmlt]
        have := hver i hilt
        simp only []
        omega
      · rw [getD_set_ne _ _ (fun hmi => him hmi.symm)]
        exact hver i hilt
    · intro idx hidx
      rcases List.mem_cons.mp hidx with rfl | hmem
      · have hv1 := hver m hmlt
        refine ⟨by simpa using hmlt, by simp only []; omega, ?_, ?_⟩
        · rw [getD_set_self _ _ hmlt]
        · rw [getD_set_self _ _ hmlt]
          intro
          rfl
      · obtain ⟨hlt, h1, hle, hmatch⟩ := hiss idx hmem
        by_cases him : idx.index = m
        · have hne_ver : idx.version ≠ (p.objects.getD m dSlot).version := by
            intro heq
            have hsome := hmatch (by rw [him, ← heq])
            rw [him, hmobj] at hsome
            cases hsome
          have hle' : idx.version ≤ (p.objects.getD m dSlot).version := by
            rw [him] at hle
            exact hle
          refine ⟨by simpa using (him ▸ hlt), h1, ?_, ?_⟩
          · rw [him, getD_set_self _ _ hmlt]
            simp only []
            omega
          · rw [him, getD_set_self _ _ hmlt]
            simp only []
            intro heq
            omega
        · refine ⟨by simpa using hlt, h1, ?_, ?_⟩ <;>
            rw [getD_set_ne _ _ (fun h => him h.symm)]
          exacts [hle, hmatch]

theorem poolInv_release {T : Type} {p : ObjectPool T}
    {I : List ObjectPoolIndex} (hp : PoolInv p I) {idx : ObjectPoolIndex}
    (hidx : idx ∈ I ∨ idx.version < 1) :
    PoolInv (p.release_object idx).1 I := by
  obtain ⟨hcount, hnodup, hfree, hver, hiss⟩ := hp
  by_cases h1 : idx.index < p.objects.length
  · by_cases h2 : (p.objects.getD idx.index dSlot).version = idx.version
    · have hmem : idx ∈ I := by
        rcases hidx with h | h
        · exact h
        · exfalso
          have := hver idx.index h1
          omega
      obtain ⟨-, h1v, hle, hmatch⟩ := hiss idx hmem
      have hocc : (p.objects.getD idx.index dSlot).object.isSome :=
        hmatch h2.symm
      have hclear := length_filterMap_set_clear h1 hocc
        ((p.objects.getD idx.index dSlot).version + 1)
      have hnotfree : idx.index ∉ p.free_slots := by
        intro hc
        obtain ⟨-, hobj⟩ := hfree idx.index hc
        rw [hobj] at hocc
        cases hocc
      rw [release_object_hit h1 h2]
      refine ⟨?_, ?_, ?_, ?_, ?_⟩
      · simp only []
        omega
      · exact List.nodup_cons.mpr ⟨hnotfree, hnodup⟩
      · intro i hi
        rcases List.mem_cons.mp hi with rfl | hifree
        · refine ⟨by simpa using h1, ?_⟩
          rw [getD_set_self _ _ h1]
        · obtain ⟨hilt, hiobj⟩ := hfree i hifree
          have hne : idx.index ≠ i := by
            rintro rfl
            exact hnotfree hifree
          exact ⟨by simpa using hilt, by rw [getD_set_ne _ _ hne]; exact hiobj⟩
      · intro i hilt
        simp only [List.length_set] at hilt
        by_cases him : i = idx.index
        · subst him
          rw [getD_set_self _ _ h1]
          have := hver idx.index hilt
          simp only []
          omega
        · rw [getD_set_ne _ _ (fun h => him h.symm)]
          exact hver i hilt
      · intro idx' hidx'
        obtain ⟨hlt', h1', hle', hmatch'⟩ := hiss idx' hidx'
        by_cases him : idx'.index = idx.index
        · rw [him] at hle'
          refine ⟨by simpa using hlt', h1', ?_, ?_⟩
          · rw [him, getD_set_self _ _ h1]
            simp only []
            omega
          · rw [him, getD_set_self _ _ h1]
            simp only []
            intro heq
            omega
        · refine ⟨by simpa using hlt', h1', ?_, ?_⟩ <;>
            rw [getD_set_ne _ _ (fun h => him h.symm)]
          exacts [hle', hmatch']
    · rw [release_object_miss (Or.inr h2)]
      exact ⟨hcount, hnodup, hfree, hver, hiss⟩
  · rw [release_object_miss (Or.inl h1)]
    exact ⟨hcount, hnodup, hfree, hver, hiss⟩

theorem preach_inv {T : Type} {p : ObjectPool T} {I : List ObjectPoolIndex}
    (h : PReach p I) : PoolInv p I := by
  induction h with
  | init =>
    refine ⟨rfl, List.nodup_nil, ?_, ?_, ?_⟩ <;> simp [ObjectPool.new]
  | create p I v hr ih => exact poolInv_create ih v
  | release p I idx hidx hr ih => exact poolInv_release ih hidx

/-! ## Stability of `get_ref` across the mutating operations -/

theorem get_ref_create_self {T : Type} {p : ObjectPool T}
    {I : List ObjectPoolIndex} (hp : PoolInv p I) (v : T) :
    ((p.create_object v).1).get_ref (p.create_object v).2 = some v := by
  cases hpop : popMin p.free_slots with
  | none =>
    rw [create_object_append hpop]
    have hg : (p.objects ++ [(⟨1, some v⟩ : Slot T)]).getD p.objects.length
        dSlot = ⟨1, some v⟩ := by
      rw [List.getD_append_right _ _ _ _ (le_refl _)]
      simp
    unfold ObjectPool.get_ref
    rw [if_pos (by simp), hg, if_pos rfl]
  | some pr =>
    obtain ⟨m, rest⟩ := pr
    obtain ⟨hm_mem, -, -⟩ := popMin_eq_some hpop
    obtain ⟨-, -, hfree, -, -⟩ := hp
    obtain ⟨hmlt, -⟩ := hfree m hm_mem
    rw [create_object_pop hpop]
    unfold ObjectPool.get_ref
    rw [if_pos (by simpa using hmlt), getD_set_self _ _ hmlt, if_pos rfl]

theorem get_ref_create_other {T : Type} {p : ObjectPool T}
    {I : List ObjectPoolIndex} (hp : PoolInv p I) {idx : ObjectPoolIndex}
    {a : T} (h : p.get_ref idx = some a) (b : T) :
    ((p.create_object b).1).get_ref idx = some a := by
  obtain ⟨hlt, hveq, hobj⟩ := get_ref_some_inv h
  obtain ⟨-, -, hfree, -, -⟩ := hp
  cases hpop : popMin p.free_slots with
  | none =>
    rw [create_object_append hpop]
    have hg := List.getD_append p.objects [(⟨1, some b⟩ : Slot T)] dSlot
      idx.index hlt
    unfold ObjectPool.get_ref
    rw [if_pos (by simp only [List.length_append]; omega), hg, if_pos hveq]
    exact hobj
  | some pr =>
    obtain ⟨m, rest⟩ := pr
    obtain ⟨hm_mem, -, -⟩ := popMin_eq_some hpop
    obtain ⟨hmlt, hmobj⟩ := hfree m hm_mem
    have hne : m ≠ idx.index := by
      rintro rfl
      rw [hmobj] at hobj
      cases hobj
    rw [create_object_pop hpop]
    unfold ObjectPool.get_ref
    rw [if_pos (by simpa using hlt), getD_set_ne _ _ hne, if_pos hveq]
    exact hobj

theorem get_ref_release_other {T : Type} {p : ObjectPool T}
    {idx1 idx2 : ObjectPoolIndex} {a : T} (hne : idx2.index ≠ idx1.index)
    (h : p.get_ref idx2 = some a) :
    ((p.release_object idx1).1).get_ref idx2 = some a := by
  obtain ⟨hlt, hveq, hobj⟩ := get_ref_some_inv h
  by_cases h1 : idx1.index < p.objects.length
  · by_cases h2 : (p.objects.getD idx1.index dSlot).version = idx1.version
    · rw [release_object_hit h1 h2]
      unfold ObjectPool.get_ref
      rw [if_pos (by simpa using hlt), getD_set_ne _ _ (Ne.symm hne),
        if_pos hveq]
      exact hobj
    · rw [release_object_miss (Or.inr h2)]
      exact h
  · rw [release_object_miss (Or.inl h1)]
    exact h

/-! ## Outcomes of `release_object` under the invariant -/

theorem release_object_none_of_inv {T : Type} {p : ObjectPool T}
    {I : List ObjectPoolIndex} (hp : PoolInv p I) {idx : ObjectPoolIndex}
    (hidx : idx ∈ I ∨ idx.version < 1)
    (hnone : (p.release_object idx).2 = none) :
    (p.release_object idx).1 = p := by
  by_cases h1 : idx.index < p.objects.length
  · by_cases h2 : (p.objects.getD idx.index dSlot).version = idx.version
    · exfalso
      obtain ⟨-, -, -, hver, hiss⟩ := hp
      have hmem : idx ∈ I := by
        rcases hidx with h | h
        · exact h
        · exfalso
          have := hver idx.index h1
          omega
      obtain ⟨-, -, -, hmatch⟩ := hiss idx hmem
      have hocc := hmatch h2.symm
      rw [release_object_hit h1 h2] at hnone
      simp only [] at hnone
      rw [hnone] at hocc
      cases hocc
    · rw [release_object_miss (Or.inr h2)]
  · rw [release_object_miss (Or.inl h1)]

theorem release_object_some_len {T : Type} {p : ObjectPool T}
    {I : List ObjectPoolIndex} (hp : PoolInv p I) {idx : ObjectPoolIndex}
    (hsome : ((p.release_object idx).2).isSome) :
    ((p.release_object idx).1).len + 1 = p.len := by
  by_cases h1 : idx.index < p.objects.length
  · by_cases h2 : (p.objects.getD idx.index dSlot).version = idx.version
    · obtain ⟨hcount, -, -, -, -⟩ := hp
      rw [release_object_hit h1 h2] at hsome ⊢
      simp only [] at hsome
      have hclear := length_filterMap_set_clear h1 hsome
        ((p.objects.getD idx.index dSlot).version + 1)
      unfold ObjectPool.len
      simp only []
      omega
    · rw [release_object_miss (Or.inr h2)] at hsome
      cases hsome
  · rw [release_object_miss (Or.inl h1)] at hsome
    cases hsome

/-! ## Preservation of the keyed-arena invariant -/

theorem kinv_create {K V : Type} [DecidableEq K] {s : ObjectMapPool K V}
    {I : List ObjectPoolIndex} (hk : KInv s I) (k : K) (v : V) :
    KInv (s.create_object k v).1 ((s.create_object k v).2 :: I) := by
  obtain ⟨hp, hmap⟩ := hk
  unfold ObjectMapPool.create_object
  refine ⟨poolInv_create hp (k, v), ?_⟩
  intro k' idx' hlook
  simp only [] at hlook
  by_cases hk' : k' = k
  · subst hk'
    rw [Function.update_same] at hlook
    cases hlook
    exact ⟨List.mem_cons_self _ _, v, get_ref_create_self hp _⟩
  · rw [Function.update_noteq hk'] at hlook
    obtain ⟨hmem, v', href⟩ := hmap k' idx' hlook
    exact ⟨List.mem_cons_of_mem _ hmem, v',
      get_ref_create_other hp href (k, v)⟩

theorem kinv_release_by_index {K V : Type} [DecidableEq K]
    {s : ObjectMapPool K V} {I : List ObjectPoolIndex} (hk : KInv s I)
    {idx : ObjectPoolIndex} (hidx : idx ∈ I ∨ idx.version < 1) :
    KInv (s.release_object_by_index idx).1 I := by
  obtain ⟨hp, hmap⟩ := hk
  unfold ObjectMapPool.release_object_by_index
  cases hrel : (s.object_pool.release_object idx).2 with
  | none =>
    show KInv ⟨(s.object_pool.release_object idx).1, s.map_of_indices⟩ I
    rw [release_object_none_of_inv hp hidx hrel]
    exact ⟨hp, hmap⟩
  | some kv =>
    obtain ⟨k₀, v₀⟩ := kv
    show KInv ⟨(s.object_pool.release_object idx).1,
      Function.update s.map_of_indices k₀ none⟩ I
    have h1 : idx.index < s.object_pool.objects.length := by
      by_contra h
      rw [release_object_miss (Or.inl h)] at hrel
      simp at hrel
    have h2 : (s.object_pool.objects.getD idx.index dSlot).version =
        idx.version := by
      by_contra h
      rw [release_object_miss (Or.inr h)] at hrel
      simp at hrel
    have hobj : (s.object_pool.objects.getD idx.index dSlot).object =
        some (k₀, v₀) := by
      rw [release_object_hit h1 h2] at hrel
      exact hrel
    refine ⟨poolInv_release hp hidx, ?_⟩
    intro k' idx' hlook
    simp only [] at hlook
    by_cases hk' : k' = k₀
    · subst hk'
      rw [Function.update_same] at hlook
      cases hlook
    · rw [Function.update_noteq hk'] at hlook
      obtain ⟨hmem, v', href⟩ := hmap k' idx' hlook
      refine ⟨hmem, v', ?_⟩
      have hne : idx'.index ≠ idx.index := by
        intro heq
        obtain ⟨hlt', hveq', hobj'⟩ := get_ref_some_inv href
        rw [heq, hobj] at hobj'
        simp only [Option.some_inj, Prod.mk.injEq] at hobj'
        exact hk' hobj'.1.symm
      exact get_ref_release_other hne href

theorem kinv_release_by_key {K V : Type} [DecidableEq K]
    {s : ObjectMapPool K V} {I : List ObjectPoolIndex} (hk : KInv s I)
    (k : K) : KInv (s.release_object_by_key k).1 I := by
  unfold ObjectMapPool.release_object_by_key
  cases hlook : s.map_of_indices k with
  | none => exact hk
  | some idx =>
    obtain ⟨hp, hmap⟩ := hk
    obtain ⟨hmem, -, -⟩ := hmap k idx hlook
    exact kinv_release_by_index ⟨hp, hmap⟩ (Or.inl hmem)

theorem kreach_inv {K V : Type} [DecidableEq K] {s : ObjectMapPool K V}
    {I : List ObjectPoolIndex} (h : KReach s I) : KInv s I := by
  induction h with
  | init =>
    refine ⟨?_, ?_⟩
    · refine ⟨rfl, List.nodup_nil, ?_, ?_, ?_⟩ <;>
        simp [ObjectMapPool.new, ObjectPool.new]
    · intro k idx hlook
      cases hlook
  | create s I k v hr ih => exact kinv_create ih k v
  | release_by_index s I idx hidx hr ih => exact kinv_release_by_index ih hidx
  | release_by_key s I k hr ih => exact kinv_release_by_key ih k

theorem create_object_len {T : Type} (p : ObjectPool T) (v : T) :
    ((p.create_object v).1).len = p.len + 1 := by
  cases hpop : popMin p.free_slots with
  | none => rw [create_object_append hpop]; rfl
  | some pr =>
    obtain ⟨m, rest⟩ := pr
    rw [create_object_pop hpop]
    rfl

/-! ## Claim theorems -/

/-- C4: starting from an empty Arena, creating 5 objects returns indices at
positions 0..4 each with generation 1; after releasing positions 2, 1, 4 in
that order, the next create reuses position 1 (the minimum free position,
although 2 was freed first) and carries generation 3 (bumped once on release
and once on reuse). -/
theorem arena_generation_scenario :
    scn1.2 = ⟨0, 1⟩ ∧ scn2.2 = ⟨1, 1⟩ ∧ scn3.2 = ⟨2, 1⟩ ∧ scn4.2 = ⟨3, 1⟩ ∧
      scn5.2 = ⟨4, 1⟩ ∧ scn6.2 = ⟨1, 3⟩ := by
  decide

/-- C5: on any Arena, an index that is out of range or whose generation does
not match its slot's current generation is rejected by `get_ref` and `get_mut`
(both return `none`), and `release_object` returns `none` leaving the pool
completely unchanged (no generation bump, no free-list push, `len`
unchanged). -/
theorem arena_stale_index_noop {T : Type} (p : ObjectPool T)
    (idx : ObjectPoolIndex)
    (h : p.objects.length ≤ idx.index ∨
      (p.objects.getD idx.index dSlot).version ≠ idx.version) :
    p.get_ref idx = none ∧ p.get_mut idx = none ∧
      p.release_object idx = (p, none) := by
  rcases h with h | h
  · have hlt : ¬ idx.index < p.objects.length := not_lt.mpr h
    refine ⟨?_, ?_, ?_⟩ <;>
      simp [ObjectPool.get_ref, ObjectPool.get_mut, ObjectPool.release_object,
        hlt]
  · refine ⟨?_, ?_, ?_⟩ <;>
      · simp only [ObjectPool.get_ref, ObjectPool.get_mut,
          ObjectPool.release_object]
        split
        · simp [h]
        · rfl

/-- Witness for C5: a concrete one-slot pool and a stale index. -/
theorem arena_stale_index_noop_witness :
    (stalePool.objects.length ≤ 0 ∨
        (stalePool.objects.getD 0 dSlot).version ≠ (1 : Int)) ∧
      (stalePool.get_ref ⟨0, 1⟩ = none ∧ stalePool.get_mut ⟨0, 1⟩ = none ∧
        stalePool.release_object ⟨0, 1⟩ = (stalePool, none)) :=
  ⟨by decide, arena_stale_index_noop stalePool ⟨0, 1⟩ (by decide)⟩

/-- C10: in every reachable Arena state, `len` equals the number of occupied
slots (the number of elements `iter` yields), `is_empty` holds exactly when
`len` is zero, `create_object` increases `len` by one, a successful
`release_object` decreases it by one, and a failed `release_object` (with any
index the program can hold) leaves the pool unchanged. -/
theorem arena_len_counts_live_slots {T : Type} (p : ObjectPool T)
    (I : List ObjectPoolIndex) (v : T) (idx : ObjectPoolIndex)
    (h : PReach p I) (hidx : idx ∈ I ∨ idx.version < 1) :
    p.len = p.iterList.length ∧
      (p.is_empty = true ↔ p.len = 0) ∧
      ((p.create_object v).1).len = p.len + 1 ∧
      (((p.release_object idx).2).isSome →
        ((p.release_object idx).1).len + 1 = p.len) ∧
      ((p.release_object idx).2 = none → (p.release_object idx).1 = p) := by
  have hp := preach_inv h
  refine ⟨hp.1, ?_, create_object_len p v, release_object_some_len hp,
    release_object_none_of_inv hp hidx⟩
  simp [ObjectPool.is_empty, ObjectPool.len]

/-- Witness for C10: the reachable one-element pool `scn1` and its issued
index. -/
theorem arena_len_counts_live_slots_witness :
    (PReach scn1.1 [scn1.2] ∧ (scn1.2 ∈ [scn1.2] ∨ scn1.2.version < 1)) ∧
      (scn1.1.len = scn1.1.iterList.length ∧
        (scn1.1.is_empty = true ↔ scn1.1.len = 0) ∧
        ((scn1.1.create_object 7).1).len = scn1.1.len + 1 ∧
        (((scn1.1.release_object scn1.2).2).isSome →
          ((scn1.1.release_object scn1.2).1).len + 1 = scn1.1.len) ∧
        ((scn1.1.release_object scn1.2).2 = none →
          (scn1.1.release_object scn1.2).1 = scn1.1)) :=
  ⟨⟨PReach.create _ _ 100 PReach.init, Or.inl (List.mem_cons_self _ _)⟩,
   arena_len_counts_live_slots scn1.1 [scn1.2] 7 scn1.2
     (PReach.create _ _ 100 PReach.init) (Or.inl (List.mem_cons_self _ _))⟩

/-- C2: in every reachable KeyedArena state, every map entry `k → i` refers to
a live arena slot storing exactly key `k`; consequently `get_ref_by_key` never
takes its `unreachable!()` branch, and both `get_ref_by_key` and
`get_mut_by_key` report not-found exactly when the key is absent from the
map. -/
theorem keyed_arena_map_entries_live {K V : Type} [DecidableEq K]
    (s : ObjectMapPool K V) (I : List ObjectPoolIndex) (key : K)
    (h : KReach s I) :
    (∀ k idx, s.map_of_indices k = some idx →
      ∃ v, s.object_pool.get_ref idx = some (k, v)) ∧
    s.get_ref_by_key key ≠ KeyLookup.torn ∧
    (s.get_ref_by_key key = KeyLookup.notFound ↔
      s.map_of_indices key = none) ∧
    (s.get_mut_by_key key = none ↔ s.map_of_indices key = none) := by
  obtain ⟨hp, hmap⟩ := kreach_inv h
  refine ⟨fun k idx hl => (hmap k idx hl).2, ?_, ?_, ?_⟩
  · cases hlook : s.map_of_indices key with
    | none => simp [ObjectMapPool.get_ref_by_key, hlook]
    | some idx =>
      obtain ⟨-, v, href⟩ := hmap key idx hlook
      simp [ObjectMapPool.get_ref_by_key, hlook,
        ObjectMapPool.get_ref_by_index, href]
  · cases hlook : s.map_of_indices key with
    | none => simp [ObjectMapPool.get_ref_by_key, hlook]
    | some idx =>
      obtain ⟨-, v, href⟩ := hmap key idx hlook
      simp [ObjectMapPool.get_ref_by_key, hlook,
        ObjectMapPool.get_ref_by_index, href]
  · cases hlook : s.map_of_indices key with
    | none => simp [ObjectMapPool.get_mut_by_key, hlook]
    | some idx =>
      obtain ⟨-, v, href⟩ := hmap key idx hlook
      have hmut : s.object_pool.get_mut idx = some (key, v) := href
      simp [ObjectMapPool.get_mut_by_key, hlook,
        ObjectMapPool.get_mut_by_index, hmut]

/-- Witness for C2: a reachable one-entry keyed arena, probed at a mapped key
and at an unmapped key through the bound `key := 3`. -/
theorem keyed_arena_map_entries_live_witness :
    KReach kScn1.1 [kScn1.2] ∧
      ((∀ k idx, kScn1.1.map_of_indices k = some idx →
          ∃ v, kScn1.1.object_pool.get_ref idx = some (k, v)) ∧
        kScn1.1.get_ref_by_key 3 ≠ KeyLookup.torn ∧
        (kScn1.1.get_ref_by_key 3 = KeyLookup.notFound ↔
          kScn1.1.map_of_indices 3 = none) ∧
        (kScn1.1.get_mut_by_key 3 = none ↔
          kScn1.1.map_of_indices 3 = none)) :=
  ⟨KReach.create _ _ 3 30 KReach.init,
   keyed_arena_map_entries_live kScn1.1 [kScn1.2] 3
     (KReach.create _ _ 3 30 KReach.init)⟩

/-- C3: on any reachable KeyedArena, creating `(k, v1)` and then `(k, v2)`
leaves both arena slots occupied: key lookup finds `(k, v2)` through the
overwritten map entry, the first index still reads `(k, v1)` from its orphaned
slot, and `len` counts both entries. -/
theorem keyed_arena_duplicate_key_orphans_slot {K V : Type} [DecidableEq K]
    (s : ObjectMapPool K V) (I : List ObjectPoolIndex) (k : K) (v1 v2 : V)
    (h : KReach s I) :
    (((s.create_object k v1).1.create_object k v2).1).get_ref_by_key k =
      KeyLookup.found k v2 ∧
    (((s.create_object k v1).1.create_object k v2).1).get_ref_by_index
      (s.create_object k v1).2 = some (k, v1) ∧
    (((s.create_object k v1).1.create_object k v2).1).len = s.len + 2 := by
  obtain ⟨hp, hmap⟩ := kreach_inv h
  obtain ⟨hp1, hmap1⟩ := kinv_create ⟨hp, hmap⟩ k v1
  have hself1 : ((s.create_object k v1).1).object_pool.get_ref
      (s.create_object k v1).2 = some (k, v1) := get_ref_create_self hp _
  refine ⟨?_, ?_, ?_⟩
  · have hlook2 :
        (((s.create_object k v1).1.create_object k v2).1).map_of_indices k =
          some ((s.create_object k v1).1.create_object k v2).2 := by
      simp only [ObjectMapPool.create_object]
      rw [Function.update_same]
    have hself2 :
        ((((s.create_object k v1).1.create_object k v2).1).object_pool).get_ref
          ((s.create_object k v1).1.create_object k v2).2 = some (k, v2) :=
      get_ref_create_self hp1 _
    simp [ObjectMapPool.get_ref_by_key, hlook2,
      ObjectMapPool.get_ref_by_index, hself2]
  · show (((((s.create_object k v1).1).object_pool.create_object
        (k, v2)).1)).get_ref (s.create_object k v1).2 = some (k, v1)
    exact get_ref_create_other hp1 hself1 (k, v2)
  · show ((((s.create_object k v1).1).object_pool.create_object
      (k, v2)).1).len = s.object_pool.len + 2
    rw [create_object_len]
    show ((s.object_pool.create_object (k, v1)).1).len + 1 = _
    rw [create_object_len]

/-- Witness for C3: duplicate-key creation on the empty keyed arena. -/
theorem keyed_arena_duplicate_key_orphans_slot_witness :
    KReach (ObjectMapPool.new : ObjectMapPool Nat Nat) [] ∧
      ((((ObjectMapPool.new : ObjectMapPool Nat Nat).create_object 1
            10).1.create_object 1 20).1.get_ref_by_key 1 =
        KeyLookup.found 1 20 ∧
       (((ObjectMapPool.new : ObjectMapPool Nat Nat).create_object 1
            10).1.create_object 1 20).1.get_ref_by_index
          ((ObjectMapPool.new : ObjectMapPool Nat Nat).create_object 1
            10).2 = some (1, 10) ∧
       (((ObjectMapPool.new : ObjectMapPool Nat Nat).create_object 1
            10).1.create_object 1 20).1.len =
        (ObjectMapPool.new : ObjectMapPool Nat Nat).len + 2) :=
  ⟨KReach.init,
   keyed_arena_duplicate_key_orphans_slot ObjectMapPool.new [] 1 10 20
     KReach.init⟩

/-- C1, counterexample: dropping a CallbackRegistry `Subscription` removes its
callback from the arena at once — for the concrete one-callback registry
`cbScn`, immediately after the drop and before any trigger the callback is no
longer stored (its slot is cleared and `len` drops to zero), refuting the
claim that removal is deferred to the next trigger. -/
theorem callback_drop_not_deferred_counterexample :
    (subscriptionDrop cbScn.1 cbScn.2).get_ref cbScn.2 = none ∧
      ((subscriptionDrop cbScn.1 cbScn.2).objects.getD 0 dSlot).object =
        none ∧
      (subscriptionDrop cbScn.1 cbScn.2).len = 0 ∧ cbScn.1.len = 1 := by
  decide

/-- C1, amended: dropping a `Subscription` releases its callback from the
arena immediately, within the drop itself (under the arena lock): any live
callback becomes unreachable and its slot is cleared at drop time.  The
deferred-removal mechanism belongs to FanoutChannel only: dropping a broadcast
`Receiver` leaves the queue arena untouched and merely pushes the queue id
onto the pending-removal list, drained at the start of the next `send`. -/
theorem subscription_drop_releases_immediately {C : Type}
    (callbacks : ObjectPool C) (idx : ObjectPoolIndex) (cb : C)
    (h : callbacks.get_ref idx = some cb) :
    (subscriptionDrop callbacks idx).get_ref idx = none ∧
      ((subscriptionDrop callbacks idx).objects.getD idx.index dSlot).object =
        none ∧
      ∀ (Q : Type) (s : FanoutQueues Q) (qid : ObjectPoolIndex),
        (receiverDrop s qid).receiver_queues = s.receiver_queues ∧
        (receiverDrop s qid).to_be_removed = qid :: s.to_be_removed := by
  obtain ⟨h1, h2, hobj⟩ := get_ref_some_inv h
  unfold subscriptionDrop
  rw [release_object_hit h1 h2]
  have hne : (callbacks.objects.getD idx.index dSlot).version + 1 ≠
      idx.version := by omega
  refine ⟨?_, ?_, fun Q s qid => ⟨rfl, rfl⟩⟩
  · unfold ObjectPool.get_ref
    simp only [List.length_set]
    rw [if_pos h1, getD_set_self _ _ h1, if_neg hne]
  · rw [getD_set_self _ _ h1]

/-- Witness for the amended C1: the one-callback registry `cbScn`. -/
theorem subscription_drop_releases_immediately_witness :
    cbScn.1.get_ref cbScn.2 = some 7 ∧
      ((subscriptionDrop cbScn.1 cbScn.2).get_ref cbScn.2 = none ∧
        ((subscriptionDrop cbScn.1 cbScn.2).objects.getD cbScn.2.index
            dSlot).object = none ∧
        ∀ (Q : Type) (s : FanoutQueues Q) (qid : ObjectPoolIndex),
          (receiverDrop s qid).receiver_queues = s.receiver_queues ∧
          (receiverDrop s qid).to_be_removed = qid :: s.to_be_removed) :=
  ⟨by decide,
   subscription_drop_releases_immediately cbScn.1 cbScn.2 7 (by decide)⟩

/-! ## TypeRegistry lemmas -/

theorem get_or_insert_of_some {A : Type} {d : MultiTypeDict A} {tid : Nat}
    {x : A} (h : d.lookupType tid = some x) (c : Unit → A) :
    d.get_or_insert_item_ref tid c = (d, x, false) := by
  unfold MultiTypeDict.lookupType at h
  cases he : d.storage.find? (fun e => e.1 == tid) with
  | none =>
    rw [he] at h
    cases h
  | some e =>
    rw [he] at h
    simp only [Option.map_some', Option.some_inj] at h
    simp only [MultiTypeDict.get_or_insert_item_ref, he, h]

theorem get_or_insert_of_none {A : Type} {d : MultiTypeDict A} {tid : Nat}
    (h : d.lookupType tid = none) (c : Unit → A) :
    d.get_or_insert_item_ref tid c =
      (⟨(tid, c ()) :: d.storage⟩, c (), true) := by
  unfold MultiTypeDict.lookupType at h
  cases he : d.storage.find? (fun e => e.1 == tid) with
  | some e =>
    rw [he] at h
    cases h
  | none => simp only [MultiTypeDict.get_or_insert_item_ref, he]

theorem lookupType_cons_self {A : Type} (storage : List (Nat × A)) (tid : Nat)
    (x : A) :
    (⟨(tid, x) :: storage⟩ : MultiTypeDict A).lookupType tid = some x := by
  unfold MultiTypeDict.lookupType
  rw [List.find?_cons_of_pos _ (by simp)]
  rfl

theorem runCalls_of_lookup_some {A : Type} {d : MultiTypeDict A} {tid : Nat}
    {x : A} (h : d.lookupType tid = some x) (cs : List (Unit → A)) :
    (d.runCalls tid cs).1 = d ∧ (d.runCalls tid cs).2.2 = 0 ∧
      ∀ y ∈ (d.runCalls tid cs).2.1, y = x := by
  induction cs with
  | nil => simp [MultiTypeDict.runCalls]
  | cons c rest ih =>
    have hcall := get_or_insert_of_some h c
    unfold MultiTypeDict.runCalls
    rw [hcall]
    obtain ⟨ih1, ih2, ih3⟩ := ih
    refine ⟨ih1, by simp [ih2], ?_⟩
    intro y hy
    rcases List.mem_cons.mp hy with rfl | hy'
    · rfl
    · exact ih3 y hy'

/-- C6: `get_or_insert_item_ref` returns the existing entry for the type when
one is present (without touching the registry or running the constructor), and
otherwise runs the constructor exactly once, inserts its result and returns
it; over any call sequence for one type with no intervening remove, the
constructor runs at most once and every call returns the item stored in the
final registry.  The per-call storage behaviour of the concurrent variant is
identical. -/
theorem type_registry_get_or_insert {A : Type} (d : MultiTypeDict A)
    (tid : Nat) (c : Unit → A) (cs : List (Unit → A)) :
    (∀ it, d.lookupType tid = some it →
      d.get_or_insert_item_ref tid c = (d, it, false)) ∧
    (d.lookupType tid = none →
      d.get_or_insert_item_ref tid c =
        (⟨(tid, c ()) :: d.storage⟩, c (), true) ∧
      ((d.get_or_insert_item_ref tid c).1).lookupType tid = some (c ())) ∧
    (d.runCalls tid cs).2.2 ≤ 1 ∧
    (∀ x ∈ (d.runCalls tid cs).2.1,
      ((d.runCalls tid cs).1).lookupType tid = some x) ∧
    (∀ tid' c', d.get_or_insert_item_ref_concurrent tid' c' =
      d.get_or_insert_item_ref tid' c') := by
  refine ⟨fun it h => get_or_insert_of_some h c, ?_, ?_, ?_,
    fun tid' c' => rfl⟩
  · intro h
    refine ⟨get_or_insert_of_none h c, ?_⟩
    rw [get_or_insert_of_none h c]
    exact lookupType_cons_self d.storage tid (c ())
  · cases hl : d.lookupType tid with
    | some x =>
      obtain ⟨-, h2, -⟩ := runCalls_of_lookup_some hl cs
      omega
    | none =>
      cases cs with
      | nil => simp [MultiTypeDict.runCalls]
      | cons c0 rest =>
        have hcall := get_or_insert_of_none hl c0
        have hl2 := lookupType_cons_self d.storage tid (c0 ())
        obtain ⟨-, h2, -⟩ := runCalls_of_lookup_some hl2 rest
        unfold MultiTypeDict.runCalls
        rw [hcall]
        simp only []
        rw [h2]
        simp
  · cases hl : d.lookupType tid with
    | some x =>
      obtain ⟨h1, -, h3⟩ := runCalls_of_lookup_some hl cs
      intro y hy
      rw [h1, h3 y hy]
      exact hl
    | none =>
      cases cs with
      | nil => simp [MultiTypeDict.runCalls]
      | cons c0 rest =>
        have hcall := get_or_insert_of_none hl c0
        have hl2 := lookupType_cons_self d.storage tid (c0 ())
        obtain ⟨h1, -, h3⟩ := runCalls_of_lookup_some hl2 rest
        unfold MultiTypeDict.runCalls
        rw [hcall]
        simp only []
        intro y hy
        rcases List.mem_cons.mp hy with rfl | hy'
        · rw [h1]
          exact hl2
        · rw [h1, h3 y hy']
          exact hl2

/-- Concrete registry used to witness the get-or-insert claim. -/
def dictScn : MultiTypeDict Nat := ⟨[(0, 5)]⟩

/-- Witness for C6: one stored type, one absent type, a two-call sequence. -/
theorem type_registry_get_or_insert_witness :
    (∀ it, dictScn.lookupType 0 = some it →
      dictScn.get_or_insert_item_ref 0 (fun _ => 9) = (dictScn, it, false)) ∧
    (dictScn.lookupType 0 = none →
      dictScn.get_or_insert_item_ref 0 (fun _ => 9) =
        (⟨(0, 9) :: dictScn.storage⟩, 9, true) ∧
      ((dictScn.get_or_insert_item_ref 0 (fun _ => 9)).1).lookupType 0 =
        some 9) ∧
    (dictScn.runCalls 0 [fun _ => 11, fun _ => 12]).2.2 ≤ 1 ∧
    (∀ x ∈ (dictScn.runCalls 0 [fun _ => 11, fun _ => 12]).2.1,
      ((dictScn.runCalls 0 [fun _ => 11, fun _ => 12]).1).lookupType 0 =
        some x) ∧
    (∀ tid' c', dictScn.get_or_insert_item_ref_concurrent tid' c' =
      dictScn.get_or_insert_item_ref tid' c') :=
  type_registry_get_or_insert dictScn 0 (fun _ => 9)
    [fun _ => 11, fun _ => 12]

/-- C7: broadcast `Receiver::try_pop` returns the oldest pending message
(removing the queue head) when the queue is non-empty; on an empty queue it
reports `SenderDropped` exactly when the watcher observes zero live senders
and "empty, try later" otherwise; hence pending messages are always drained
before `SenderDropped` is ever reported. -/
theorem fanout_try_pop_classification {T : Type} (r : BroadcastReceiver T) :
    (∀ x rest, r.queue = x :: rest →
      broadcastTryPop r = (.ok (some x), ⟨rest, r.watcherCount⟩)) ∧
    (r.queue = [] → r.watcherCount = 0 →
      broadcastTryPop r = (.error .mk, r)) ∧
    (r.queue = [] → r.watcherCount ≠ 0 →
      broadcastTryPop r = (.ok none, r)) ∧
    ((broadcastTryPop r).1 = .error .mk → r.queue = []) := by
  obtain ⟨q, w⟩ := r
  refine ⟨?_, ?_, ?_, ?_⟩
  · intro x rest hq
    subst hq
    rfl
  · intro hq hw
    subst hq
    subst hw
    rfl
  · intro hq hw
    subst hq
    simp [broadcastTryPop, is_observed_dropped, hw]
  · intro herr
    cases q with
    | nil => rfl
    | cons x rest => cases herr

/-- Witness for C7: an empty-queue receiver whose watcher observes zero
senders. -/
theorem fanout_try_pop_classification_witness :
    (∀ x rest, bScn.queue = x :: rest →
      broadcastTryPop bScn = (.ok (some x), ⟨rest, bScn.watcherCount⟩)) ∧
    (bScn.queue = [] → bScn.watcherCount = 0 →
      broadcastTryPop bScn = (.error .mk, bScn)) ∧
    (bScn.queue = [] → bScn.watcherCount ≠ 0 →
      broadcastTryPop bScn = (.ok none, bScn)) ∧
    ((broadcastTryPop bScn).1 = .error .mk → bScn.queue = []) :=
  fanout_try_pop_classification bScn

/-- C8: mpcc `send` succeeds exactly when at least one receiver exists,
pushing at the queue tail and pinging the change signal, and otherwise fails
with `Disconnected` leaving the shared state unchanged; `try_pop` removes and
returns the queue head when non-empty, and on an empty queue reports
`Disconnected` exactly when the sender count is zero and `Empty` otherwise,
leaving the state unchanged. -/
theorem mpcc_send_try_pop_classification {T : Type} (s : MpccShared T)
    (msg : T) :
    ((mpccSend s msg).2 = .ok () ↔ s.receiverCount ≠ 0) ∧
    (s.receiverCount ≠ 0 → mpccSend s msg =
      (⟨s.queue ++ [msg], s.senderCount, s.receiverCount,
        s.signalCount + 1⟩, .ok ())) ∧
    (s.receiverCount = 0 → mpccSend s msg = (s, .error .Disconnected)) ∧
    (∀ x rest, s.queue = x :: rest → mpccTryPop s =
      (⟨rest, s.senderCount, s.receiverCount, s.signalCount + 1⟩, .ok x)) ∧
    (s.queue = [] → s.senderCount = 0 →
      mpccTryPop s = (s, .error .Disconnected)) ∧
    (s.queue = [] → s.senderCount ≠ 0 →
      mpccTryPop s = (s, .error .Empty)) := by
  refine ⟨?_, ?_, ?_, ?_, ?_, ?_⟩
  · constructor
    · intro hok hrc
      rw [show mpccSend s msg = (s, .error .Disconnected) by
        simp [mpccSend, hrc]] at hok
      cases hok
    · intro hrc
      simp [mpccSend, hrc]
  · intro hrc
    simp [mpccSend, hrc]
  · intro hrc
    simp [mpccSend, hrc]
  · intro x rest hq
    obtain ⟨q, sc, rc, sig⟩ := s
    simp only [] at hq
    subst hq
    rfl
  · intro hq hsc
    obtain ⟨q, sc, rc, sig⟩ := s
    simp only [] at hq hsc
    subst hq
    subst hsc
    rfl
  · intro hq hsc
    obtain ⟨q, sc, rc, sig⟩ := s
    simp only [] at hq hsc
    subst hq
    simp [mpccTryPop, hsc]

/-- Witness for C8: a one-message channel state with one sender and one
receiver. -/
theorem mpcc_send_try_pop_classification_witness :
    ((mpccSend mScn 5).2 = .ok () ↔ mScn.receiverCount ≠ 0) ∧
    (mScn.receiverCount ≠ 0 → mpccSend mScn 5 =
      (⟨mScn.queue ++ [5], mScn.senderCount, mScn.receiverCount,
        mScn.signalCount + 1⟩, .ok ())) ∧
    (mScn.receiverCount = 0 → mpccSend mScn 5 =
      (mScn, .error .Disconnected)) ∧
    (∀ x rest, mScn.queue = x :: rest → mpccTryPop mScn =
      (⟨rest, mScn.senderCount, mScn.receiverCount,
        mScn.signalCount + 1⟩, .ok x)) ∧
    (mScn.queue = [] → mScn.senderCount = 0 →
      mpccTryPop mScn = (mScn, .error .Disconnected)) ∧
    (mScn.queue = [] → mScn.senderCount ≠ 0 →
      mpccTryPop mScn = (mScn, .error .Empty)) :=
  mpcc_send_try_pop_classification mScn 5

/-- C9: however many mutations (including zero) a `borrow_mut` guard applies,
no observer runs while the guard is alive (the call log is produced only at
guard release), and at release every live observer — those not marked for
deferred deletion — is invoked exactly once (the log is exactly one entry per
live observer, in slot order), receiving the value's final state. -/
theorem observable_borrow_single_notification {T : Type} (o : Observable T)
    (fs : List (T → T)) :
    ((o.borrowMutScope fs).1).value = fs.foldl (fun a f => f a) o.value ∧
    (o.borrowMutScope fs).2 =
      (((o.borrowMutScope fs).1).observers).iterList.map
        (fun f => (f, fs.foldl (fun a f => f a) o.value)) ∧
    (o.borrowMutScope fs).2.length =
      (((o.borrowMutScope fs).1).observers).iterList.length ∧
    (∀ pr ∈ (o.borrowMutScope fs).2,
      pr.2 = fs.foldl (fun a f => f a) o.value) ∧
    (o.to_be_deleted_observers = [] →
      (o.borrowMutScope fs).2 = o.observers.iterList.map
        (fun f => (f, fs.foldl (fun a f => f a) o.value))) := by
  refine ⟨rfl, rfl, by simp [Observable.borrowMutScope,
    Observable.trigger_observers], ?_, ?_⟩
  · intro pr hpr
    simp only [Observable.borrowMutScope, Observable.trigger_observers,
      List.mem_map] at hpr
    obtain ⟨f, -, heq⟩ := hpr
    rw [← heq]
  · intro hdel
    simp [Observable.borrowMutScope, Observable.trigger_observers, hdel]

/-- Witness for C9: one live observer and two batched mutations. -/
theorem observable_borrow_single_notification_witness :
    ((oScn.borrowMutScope oFs).1).value = oFs.foldl (fun a f => f a)
      oScn.value ∧
    (oScn.borrowMutScope oFs).2 =
      (((oScn.borrowMutScope oFs).1).observers).iterList.map
        (fun f => (f, oFs.foldl (fun a f => f a) oScn.value)) ∧
    (oScn.borrowMutScope oFs).2.length =
      (((oScn.borrowMutScope oFs).1).observers).iterList.length ∧
    (∀ pr ∈ (oScn.borrowMutScope oFs).2,
      pr.2 = oFs.foldl (fun a f => f a) oScn.value) ∧
    (oScn.to_be_deleted_observers = [] →
      (oScn.borrowMutScope oFs).2 = oScn.observers.iterList.map
        (fun f => (f, oFs.foldl (fun a f => f a) oScn.value))) :=
  observable_borrow_single_notification oScn oFs

end BytifexUtils
